import Mathlib

/-!
Verification development for the hierarchical file-storage engine of the
portfolio backend.  The controllers under scrutiny live in
`src/controllers/storageController.ts` (base variant), its
activity-logging variant, and `src/controllers/chunkUploadController.ts`.

The JavaScript code is shallowly embedded:

* strings are Lean `String`s (a `String` is a list of `Char`s; the inputs
  we reason about are ASCII, where UTF-16 code units, code points and
  Lean `Char`s coincide);
* the Node `path` module (posix flavour, as the deployment target) is
  modelled by `pathNormalize` / `pathJoin` / `pathDirname` below;
* the filesystem is modelled either at the string level (for the path
  guard) or as a map from segment lists to file contents plus a set of
  directories (for the trash / versioning operations);
* the Mongo collections behind the metadata models are association lists.
-/

namespace PortfolioStorage

/-! ### Character-level string helpers (JS builtins) -/

/-- Model of `needle` being a prefix of `haystack`, on character lists.
Used to embed both JS `String.prototype.startsWith` and list-of-segment
path containment. -/
def charPre : List Char → List Char → Bool
  | [], _ => true
  | _ :: _, [] => false
  | a :: as, b :: bs => a == b && charPre as bs

/-- Model of JS `s.startsWith(pre)`. -/
def jsStartsWith (s pre : String) : Bool :=
  charPre pre.toList s.toList

/-! ### Node `path` module (posix) -/

/-- Split a character list on `/` into raw segments (the way
`path.normalize` tokenizes its input). -/
def splitSlash : List Char → List (List Char)
  | [] => [[]]
  | '/' :: rest => [] :: splitSlash rest
  | c :: rest =>
    match splitSlash rest with
    | [] => [[c]]
    | s :: ss => (c :: s) :: ss

/-- Segment resolution stack of `path.normalize`: drop empty and `.`
segments, let `..` pop a previous segment (or survive at the front of a
relative path, or vanish at the root of an absolute one). -/
def normStack (isAbs : Bool) : List String → List String → List String
  | stk, [] => stk.reverse
  | stk, s :: rest =>
    if s = "" || s = "." then normStack isAbs stk rest
    else if s = ".." then
      match stk with
      | t :: stk' =>
        if t = ".." then normStack isAbs (".." :: t :: stk') rest
        else normStack isAbs stk' rest
      | [] => if isAbs then normStack isAbs [] rest else normStack isAbs [".."] rest
  else normStack isAbs (s :: stk) rest

/-- Model of Node `path.normalize` (posix), up to a trailing separator,
which the controller code never produces. -/
def pathNormalize (s : String) : String :=
  let cs := s.toList
  let isAbs := charPre ['/'] cs
  let segs := (splitSlash cs).map (fun l => String.mk l)
  let out := normStack isAbs [] segs
  if isAbs then
    "/" ++ String.intercalate "/" out
  else if out.isEmpty then "." else String.intercalate "/" out

/-- Model of Node `path.join(a, b)`: concatenate with a separator and
normalize. -/
def pathJoin (a b : String) : String :=
  pathNormalize (a ++ "/" ++ b)

/-! ### The path guard of `storageController.ts` (base variant)

```js
const sanitizePath = (inputPath) =>
    inputPath.replace(/(\.\.(\/|\\))/g, '').replace(/^\/+/, '');
...
const fullPath = path.join(storageDir, folderPath);
if (!fullPath.startsWith(storageDir)) { ... 400 Invalid path ... }
```
-/

/-- One left-to-right pass removing every non-overlapping occurrence of
`../` or a backslash variant, exactly as the global-regex `replace` in
`sanitizePath` does. -/
def stripDotDotSep : List Char → List Char
  | '.' :: '.' :: '/' :: rest => stripDotDotSep rest
  | '.' :: '.' :: '\\' :: rest => stripDotDotSep rest
  | c :: rest => c :: stripDotDotSep rest
  | [] => []

/-- Drop the leading run of `/` characters (the `replace(/^\/+/, '')`
step). -/
def dropLeadSlashes : List Char → List Char
  | '/' :: rest => dropLeadSlashes rest
  | cs => cs

/-- The `sanitizePath` helper of the base `storageController.ts`. -/
def sanitizePathV1 (inputPath : String) : String :=
  String.mk (dropLeadSlashes (stripDotDotSep inputPath.toList))

/-- The traversal guard of the base variant: resolve the sanitized path
against the storage root and accept when the resolved string starts with
the root. -/
def guardV1Accepts (storageDir inputPath : String) : Bool :=
  jsStartsWith (pathJoin storageDir (sanitizePathV1 inputPath)) storageDir

/-- Modelled from the spec: a resolved absolute path is inside the
storage root when it is equal to the root or a descendant of it
(root plus a separator is a prefix). -/
def underRoot (storageDir q : String) : Bool :=
  q == storageDir || jsStartsWith q (storageDir ++ "/")

/-- C1. The path guard of the base variant accepts the traversal input
`....//storagex/secret.txt`: a single regex pass leaves the residue
`../storagex/secret.txt`, which resolves to `/srv/app/storagex/...`, a
sibling of the storage root `/srv/app/storage` that still passes the
`startsWith` check.  The guard therefore lets an input containing `../`
resolve outside the storage root, contradicting the claim. -/
theorem c1_path_guard_escape :
    sanitizePathV1 "....//storagex/secret.txt" = "../storagex/secret.txt" ∧
    pathJoin "/srv/app/storage" (sanitizePathV1 "....//storagex/secret.txt")
      = "/srv/app/storagex/secret.txt" ∧
    guardV1Accepts "/srv/app/storage" "....//storagex/secret.txt" = true ∧
    underRoot "/srv/app/storage"
      (pathJoin "/srv/app/storage" (sanitizePathV1 "....//storagex/secret.txt")) = false := by
  refine ⟨?_, ?_, ?_, ?_⟩ <;> decide

/-! ### A segment-level filesystem model

The trash / versioning controllers manipulate paths of the form
`path.join(storageDir, '.trash', sanitizedItemPath)` and rename subtrees
with `fs.rename`.  We model paths relative to the storage root as lists
of segments (the image of the string paths under `splitSlash`), and the
filesystem as a file-content map together with a directory predicate.
`fs.rename` requires the source to exist and the destination's parent
directory to exist, fails with `EINVAL` when moving a directory into
itself, and refuses to replace an existing directory. -/

/-- A path relative to the storage root, as a list of segments. -/
abbrev RPath := List String

/-- Segment-list containment: `segPre p q` holds when `p` is an initial
run of `q`'s segments, i.e. `q` is `p` itself or lies below it. -/
def segPre : RPath → RPath → Bool
  | [], _ => true
  | _ :: _, [] => false
  | a :: as, b :: bs => a == b && segPre as bs

/-- The filesystem under the storage root: contents of each file path,
and which paths are directories (`[]`, the root itself, always is). -/
structure StorageFS where
  files : RPath → Option (List Nat)
  dirs : RPath → Bool

/-- Whether a directory exists (the root always does). -/
def StorageFS.dirAt (fs : StorageFS) (d : RPath) : Bool :=
  d.isEmpty || fs.dirs d

/-- Model of `fs.mkdirSync(dir, { recursive: true })`: create `d` and
every ancestor of it. -/
def mkdirp (d : RPath) (fs : StorageFS) : StorageFS :=
  { fs with dirs := fun q => fs.dirs q || (!q.isEmpty && segPre q d) }

/-- The filesystem after a successful rename: the whole subtree at `src`
is read back under `dst`, the `src` subtree disappears, everything else
is untouched. -/
def movedFS (src dst : RPath) (fs : StorageFS) : StorageFS :=
  { files := fun q =>
      if segPre dst q then fs.files (src ++ q.drop dst.length)
      else if segPre src q then none
      else fs.files q
  , dirs := fun q =>
      if segPre dst q then fs.dirs (src ++ q.drop dst.length)
      else if segPre src q then false
      else fs.dirs q }

/-- Model of `fs.rename(src, dst)`.  `none` is the error callback firing
(`ENOENT` when the source is missing or the destination's parent does
not exist, `EINVAL` when moving a tree into itself, refusal to replace
an existing directory); `some` relocates the whole subtree at `src` to
`dst`. -/
def renameFS (src dst : RPath) (fs : StorageFS) : Option StorageFS :=
  if src = dst then some fs
  else if segPre src dst then none
  else if !((fs.files src).isSome || fs.dirs src) then none
  else if !fs.dirAt dst.dropLast then none
  else if fs.dirs dst then none
  else some (movedFS src dst fs)

/-! ### Basic lemmas about the model -/

theorem segPre_refl (l : RPath) : segPre l l = true := by
  induction l with
  | nil => rfl
  | cons a as ih => simp [segPre, ih]

theorem segPre_length {p q : RPath} (h : segPre p q = true) :
    p.length ≤ q.length := by
  induction p generalizing q with
  | nil => exact Nat.zero_le _
  | cons a as ih =>
    cases q with
    | nil => simp [segPre] at h
    | cons b bs =>
      simp only [segPre, Bool.and_eq_true] at h
      simpa [List.length_cons, Nat.succ_le_succ_iff] using ih h.2

theorem segPre_dropLast_self {p : RPath} (hp : p ≠ []) :
    segPre p p.dropLast = false := by
  by_contra h
  have h' : segPre p p.dropLast = true := by
    cases hsp : segPre p p.dropLast with
    | false => exact absurd hsp h
    | true => rfl
  have hlen := segPre_length h'
  have : p.dropLast.length = p.length - 1 := List.length_dropLast p
  have hpos : 0 < p.length := List.length_pos.mpr hp
  omega

theorem segPre_cons_false {a b : String} {as bs : RPath} (h : a ≠ b) :
    segPre (a :: as) (b :: bs) = false := by
  simp [segPre, h]

/-- A path cannot be a strict initial run of the same path with one
segment prepended when its head differs from that segment. -/
theorem segPre_self_trash {p : RPath} (hp : p ≠ [])
    (hh : ∀ a as, p = a :: as → a ≠ ".trash") :
    segPre p (".trash" :: p) = false := by
  cases p with
  | nil => exact absurd rfl hp
  | cons a as => exact segPre_cons_false (hh a as rfl)

theorem segPre_trash_cons {p : RPath} (hp : p ≠ [])
    (hh : ∀ a as, p = a :: as → a ≠ ".trash") :
    segPre (".trash" :: p) p = false := by
  cases p with
  | nil => exact absurd rfl hp
  | cons a as =>
    have : ".trash" ≠ a := fun h => (hh a as rfl) h.symm
    exact segPre_cons_false this

theorem mkdirp_files (d : RPath) (fs : StorageFS) :
    (mkdirp d fs).files = fs.files := rfl

theorem mkdirp_dirs (d : RPath) (fs : StorageFS) (q : RPath) :
    (mkdirp d fs).dirs q = (fs.dirs q || (!q.isEmpty && segPre q d)) := rfl

/-! ### The trash manager (`deleteItem` / `restoreItem`)

Base variant (`storageController.ts`):

```js
const trashPath = path.join(storageDir, '.trash', sanitizedItemPath);
fs.mkdirSync(path.dirname(trashPath), { recursive: true });
fs.rename(fullPath, trashPath, err => err ? 500 : 200);
```

The activity-logging variant guards the `mkdirSync` with
`if (!sanitizedItemPath.startsWith('.trash'))`.  The string-level
`sanitizePath`/`startsWith(storageDir)` guard is analysed separately
(C1); here an item path is its segment form, on which that guard always
passes, leaving the filesystem effects. -/

inductive StorageResult
  | ok
  | ioError
  deriving DecidableEq, Repr

/-- Model of the string check `sanitizedItemPath.startsWith('.trash')`
on a segment path: the first segment starts with `.trash`. -/
def startsWithTrash (p : RPath) : Bool :=
  match p with
  | [] => false
  | s :: _ => jsStartsWith s ".trash"

/-- The trash-directory creation step of the activity-logging
`deleteItem`: skipped when the source path is already inside `.trash`. -/
def trashMkdirStep (p : RPath) (fs : StorageFS) : StorageFS :=
  if startsWithTrash p then fs else mkdirp (".trash" :: p).dropLast fs

/-- `deleteItem` of the base `storageController.ts`: always create the
trash parent directory, then rename the item to `.trash/<path>`. -/
def deleteItemV1 (p : RPath) (fs : StorageFS) : StorageResult × StorageFS :=
  let trashPath : RPath := ".trash" :: p
  let fs1 := mkdirp trashPath.dropLast fs
  match renameFS p trashPath fs1 with
  | some fs2 => (.ok, fs2)
  | none => (.ioError, fs1)

/-- `deleteItem` of the activity-logging variant: the trash-directory
creation is conditional on the source not being inside `.trash`. -/
def deleteItemV2 (p : RPath) (fs : StorageFS) : StorageResult × StorageFS :=
  let trashPath : RPath := ".trash" :: p
  let fs1 := trashMkdirStep p fs
  match renameFS p trashPath fs1 with
  | some fs2 => (.ok, fs2)
  | none => (.ioError, fs1)

/-- `restoreItem` (identical in both variants): recreate the
destination's parent directories, then rename `.trash/<path>` back to
`<path>`. -/
def restoreItemModel (p : RPath) (fs : StorageFS) : StorageResult × StorageFS :=
  let trashPath : RPath := ".trash" :: p
  let fs1 := mkdirp p.dropLast fs
  match renameFS trashPath p fs1 with
  | some fs2 => (.ok, fs2)
  | none => (.ioError, fs1)

/-! ### Delete / restore round-trip lemmas -/

theorem ne_trash_cons (p : RPath) : p ≠ ".trash" :: p := by
  intro h
  have := congrArg List.length h
  simp at this

theorem renameFS_success {src dst : RPath} {fs : StorageFS}
    (h1 : src ≠ dst) (h2 : segPre src dst = false)
    (h3 : ((fs.files src).isSome || fs.dirs src) = true)
    (h4 : fs.dirAt dst.dropLast = true)
    (h5 : fs.dirs dst = false) :
    renameFS src dst fs = some (movedFS src dst fs) := by
  simp [renameFS, h1, h2, h3, h4, h5]

theorem movedFS_files_dst (src dst : RPath) (fs : StorageFS) :
    (movedFS src dst fs).files dst = fs.files src := by
  simp [movedFS, segPre_refl]

theorem movedFS_dirs_dst (src dst : RPath) (fs : StorageFS) :
    (movedFS src dst fs).dirs dst = fs.dirs src := by
  simp [movedFS, segPre_refl]

theorem movedFS_files_src {src dst : RPath} (fs : StorageFS)
    (h : segPre dst src = false) :
    (movedFS src dst fs).files src = none := by
  simp [movedFS, h, segPre_refl]

theorem movedFS_dirs_src {src dst : RPath} (fs : StorageFS)
    (h : segPre dst src = false) :
    (movedFS src dst fs).dirs src = false := by
  simp [movedFS, h, segPre_refl]

theorem movedFS_files_other {src dst q : RPath} (fs : StorageFS)
    (hd : segPre dst q = false) (hs : segPre src q = false) :
    (movedFS src dst fs).files q = fs.files q := by
  simp [movedFS, hd, hs]

theorem movedFS_dirs_other {src dst q : RPath} (fs : StorageFS)
    (hd : segPre dst q = false) (hs : segPre src q = false) :
    (movedFS src dst fs).dirs q = fs.dirs q := by
  simp [movedFS, hd, hs]

/-- Successful delete: for a clean nonempty item path whose first segment
is not `.trash`, holding bytes `b`, with no stale directory at the trash
slot, `deleteItem` (base variant) moves the file to `.trash/<path>`. -/
theorem deleteItemV1_ok (fs : StorageFS) (p : RPath) (b : List Nat)
    (hp : p ≠ []) (hh : ∀ a as, p = a :: as → a ≠ ".trash")
    (hf : fs.files p = some b)
    (hd : fs.dirs (".trash" :: p) = false)
    (hdp : fs.dirs p = false) :
    deleteItemV1 p fs =
      (.ok, movedFS p (".trash" :: p) (mkdirp (".trash" :: p).dropLast fs)) ∧
      (deleteItemV1 p fs).2.files (".trash" :: p) = some b ∧
      (deleteItemV1 p fs).2.files p = none ∧
      (deleteItemV1 p fs).2.dirs p = false ∧
      (deleteItemV1 p fs).2.dirs (".trash" :: p) = false := by
  have hne : ¬ (p = ".trash" :: p) := ne_trash_cons p
  have hsp : segPre p (".trash" :: p) = false := segPre_self_trash hp hh
  have htp : segPre (".trash" :: p) p = false := segPre_trash_cons hp hh
  have hdl : (".trash" :: p).dropLast = ".trash" :: p.dropLast := by
    cases p with
    | nil => exact absurd rfl hp
    | cons a as => rfl
  have hself : segPre (".trash" :: p) (".trash" :: p).dropLast = false :=
    segPre_dropLast_self (by simp)
  have hpd : segPre p ((".trash" :: p).dropLast) = false := by
    rw [hdl]
    cases p with
    | nil => exact absurd rfl hp
    | cons a as => exact segPre_cons_false (hh a as rfl)
  set fs1 := mkdirp (".trash" :: p).dropLast fs with hfs1
  have hfs1files : fs1.files p = some b := hf
  have hsrc : ((fs1.files p).isSome || fs1.dirs p) = true := by
    simp [hfs1files]
  have hparent : fs1.dirAt (".trash" :: p).dropLast = true := by
    have hne' : (".trash" :: p).dropLast ≠ [] := by rw [hdl]; simp
    simp [StorageFS.dirAt, hfs1, mkdirp_dirs, hne', segPre_refl]
  have hdstdir : fs1.dirs (".trash" :: p) = false := by
    simp [hfs1, mkdirp_dirs, hd, hself]
  have hren : renameFS p (".trash" :: p) fs1 = some (movedFS p (".trash" :: p) fs1) :=
    renameFS_success hne hsp hsrc hparent hdstdir
  have hdel : deleteItemV1 p fs = (.ok, movedFS p (".trash" :: p) fs1) := by
    simp [deleteItemV1, ← hfs1, hren]
  refine ⟨hdel, ?_, ?_, ?_, ?_⟩
  · rw [hdel]
    show (movedFS p (".trash" :: p) fs1).files (".trash" :: p) = some b
    rw [movedFS_files_dst]; exact hfs1files
  · rw [hdel]
    show (movedFS p (".trash" :: p) fs1).files p = none
    exact movedFS_files_src fs1 htp
  · rw [hdel]
    show (movedFS p (".trash" :: p) fs1).dirs p = false
    exact movedFS_dirs_src fs1 htp
  · rw [hdel]
    show (movedFS p (".trash" :: p) fs1).dirs (".trash" :: p) = false
    rw [movedFS_dirs_dst]
    simp [hfs1, mkdirp_dirs, hdp, hpd]

/-- Successful restore: with the item's bytes sitting at `.trash/<path>`
and nothing at the original path, `restoreItem` moves them back. -/
theorem restoreItem_ok (fs : StorageFS) (p : RPath) (b : List Nat)
    (hp : p ≠ []) (hh : ∀ a as, p = a :: as → a ≠ ".trash")
    (hf : fs.files (".trash" :: p) = some b)
    (hdp : fs.dirs p = false) :
    restoreItemModel p fs =
      (.ok, movedFS (".trash" :: p) p (mkdirp p.dropLast fs)) ∧
      (restoreItemModel p fs).2.files p = some b ∧
      (restoreItemModel p fs).2.files (".trash" :: p) = none ∧
      (restoreItemModel p fs).2.dirs (".trash" :: p) = false ∧
      (restoreItemModel p fs).2.dirs p = fs.dirs (".trash" :: p) := by
  have hne : ¬ ((".trash" :: p) = p) := fun h => ne_trash_cons p h.symm
  have htp : segPre (".trash" :: p) p = false := segPre_trash_cons hp hh
  have hsp : segPre p (".trash" :: p) = false := segPre_self_trash hp hh
  set fs1 := mkdirp p.dropLast fs with hfs1
  have hfs1files : fs1.files (".trash" :: p) = some b := hf
  have hsrc : ((fs1.files (".trash" :: p)).isSome || fs1.dirs (".trash" :: p)) = true := by
    simp [hfs1files]
  have hparent : fs1.dirAt p.dropLast = true := by
    by_cases hnil : p.dropLast = []
    · simp [StorageFS.dirAt, hnil]
    · simp [StorageFS.dirAt, hfs1, mkdirp_dirs, hnil, segPre_refl]
  have hdstdir : fs1.dirs p = false := by
    have : segPre p p.dropLast = false := segPre_dropLast_self hp
    simp [hfs1, mkdirp_dirs, hdp, this]
  have hren : renameFS (".trash" :: p) p fs1 = some (movedFS (".trash" :: p) p fs1) :=
    renameFS_success hne htp hsrc hparent hdstdir
  have hres : restoreItemModel p fs = (.ok, movedFS (".trash" :: p) p fs1) := by
    simp [restoreItemModel, ← hfs1, hren]
  refine ⟨hres, ?_, ?_, ?_, ?_⟩
  · rw [hres]
    show (movedFS (".trash" :: p) p fs1).files p = some b
    rw [movedFS_files_dst]; exact hfs1files
  · rw [hres]
    show (movedFS (".trash" :: p) p fs1).files (".trash" :: p) = none
    exact movedFS_files_src fs1 hsp
  · rw [hres]
    show (movedFS (".trash" :: p) p fs1).dirs (".trash" :: p) = false
    exact movedFS_dirs_src fs1 hsp
  · rw [hres]
    show (movedFS (".trash" :: p) p fs1).dirs p = fs.dirs (".trash" :: p)
    rw [movedFS_dirs_dst]
    have hlen : segPre (".trash" :: p) p.dropLast = false := by
      by_contra h
      have h' : segPre (".trash" :: p) p.dropLast = true := by
        cases hx : segPre (".trash" :: p) p.dropLast with
        | false => exact absurd hx h
        | true => rfl
      have := segPre_length h'
      have h2 : p.dropLast.length = p.length - 1 := List.length_dropLast p
      simp [List.length_cons] at this
      omega
    simp [hfs1, mkdirp_dirs, hlen]

/-- C3.  Delete followed by restore is a round trip: for a clean item
path `p` holding bytes `b` (no stale entry at the trash slot), the base
variant's `deleteItem` puts exactly `.trash/<p>` in place with the same
bytes and removes `p`; `restoreItem` brings the bytes back to `p` and
empties the trash slot; and the whole cycle can be repeated with the
same outcome. -/
theorem c3_delete_restore_roundtrip (fs : StorageFS) (p : RPath) (b : List Nat)
    (hp : p ≠ []) (hh : ∀ a as, p = a :: as → a ≠ ".trash")
    (hf : fs.files p = some b)
    (hd : fs.dirs (".trash" :: p) = false)
    (hdp : fs.dirs p = false) :
    ∃ fs1 fs2 fs3 fs4,
      deleteItemV1 p fs = (.ok, fs1) ∧
      fs1.files (".trash" :: p) = some b ∧
      fs1.files p = none ∧
      restoreItemModel p fs1 = (.ok, fs2) ∧
      fs2.files p = some b ∧
      fs2.files (".trash" :: p) = none ∧
      deleteItemV1 p fs2 = (.ok, fs3) ∧
      fs3.files (".trash" :: p) = some b ∧
      fs3.files p = none ∧
      restoreItemModel p fs3 = (.ok, fs4) ∧
      fs4.files p = some b ∧
      fs4.files (".trash" :: p) = none := by
  obtain ⟨hdel1, hft1, hfp1, hdirp1, hdirt1⟩ := deleteItemV1_ok fs p b hp hh hf hd hdp
  set fs1 := (deleteItemV1 p fs).2 with hfs1def
  have hdel1' : deleteItemV1 p fs = (.ok, fs1) := by
    rw [hfs1def, hdel1]
  obtain ⟨hres1, hfp2, hft2, hdirt2, hdirp2⟩ := restoreItem_ok fs1 p b hp hh hft1 hdirp1
  set fs2 := (restoreItemModel p fs1).2 with hfs2def
  have hres1' : restoreItemModel p fs1 = (.ok, fs2) := by
    rw [hfs2def, hres1]
  have hdirp2' : fs2.dirs p = false := by
    rw [hfs2def, hdirp2, hdirt1]
  obtain ⟨hdel2, hft3, hfp3, hdirp3, hdirt3⟩ := deleteItemV1_ok fs2 p b hp hh hfp2 hdirt2 hdirp2'
  set fs3 := (deleteItemV1 p fs2).2 with hfs3def
  have hdel2' : deleteItemV1 p fs2 = (.ok, fs3) := by
    rw [hfs3def, hdel2]
  obtain ⟨hres2, hfp4, hft4, _, _⟩ := restoreItem_ok fs3 p b hp hh hft3 hdirp3
  set fs4 := (restoreItemModel p fs3).2 with hfs4def
  have hres2' : restoreItemModel p fs3 = (.ok, fs4) := by
    rw [hfs4def, hres2]
  exact ⟨fs1, fs2, fs3, fs4, hdel1', hft1, hfp1, hres1', hfp2, hft2,
    hdel2', hft3, hfp3, hres2', hfp4, hft4⟩

/-- Witness for C3: a one-file filesystem holding `docs/cv.pdf`, with
the hypotheses checked concretely. -/
theorem c3_delete_restore_roundtrip_witness :
    ∃ fs1 fs2 fs3 fs4,
      deleteItemV1 ["docs", "cv.pdf"]
        ⟨fun q => if q = ["docs", "cv.pdf"] then some [3, 1, 4] else none,
         fun q => q = ["docs"]⟩ = (.ok, fs1) ∧
      fs1.files [".trash", "docs", "cv.pdf"] = some [3, 1, 4] ∧
      fs1.files ["docs", "cv.pdf"] = none ∧
      restoreItemModel ["docs", "cv.pdf"] fs1 = (.ok, fs2) ∧
      fs2.files ["docs", "cv.pdf"] = some [3, 1, 4] ∧
      fs2.files [".trash", "docs", "cv.pdf"] = none ∧
      deleteItemV1 ["docs", "cv.pdf"] fs2 = (.ok, fs3) ∧
      fs3.files [".trash", "docs", "cv.pdf"] = some [3, 1, 4] ∧
      fs3.files ["docs", "cv.pdf"] = none ∧
      restoreItemModel ["docs", "cv.pdf"] fs3 = (.ok, fs4) ∧
      fs4.files ["docs", "cv.pdf"] = some [3, 1, 4] ∧
      fs4.files [".trash", "docs", "cv.pdf"] = none := by
  exact c3_delete_restore_roundtrip _ ["docs", "cv.pdf"] [3, 1, 4]
    (by decide)
    (by intro a as h; cases h; decide)
    (by simp)
    (by simp)
    (by simp)

/-! ### C7: delete-from-trash never double-nests `.trash/.trash/...` -/

theorem segPre_pair {x y : String} {q : RPath} (h : segPre [x, y] q = true) :
    ∃ r, q = x :: y :: r := by
  cases q with
  | nil => simp [segPre] at h
  | cons b bs =>
    cases bs with
    | nil => simp [segPre] at h
    | cons c cs =>
      simp [segPre] at h
      exact ⟨cs, by rw [h.1, h.2]⟩

theorem head_not_dottrash {a : String} {as : RPath}
    (h : startsWithTrash (a :: as) = false) : a ≠ ".trash" := by
  intro he
  subst he
  have ht : startsWithTrash (".trash" :: as) = true := by
    show jsStartsWith ".trash" ".trash" = true
    decide
  rw [h] at ht
  exact absurd ht (by decide)

theorem renameFS_some {src dst : RPath} {fs fs' : StorageFS}
    (h : renameFS src dst fs = some fs') :
    fs' = fs ∨
      (segPre src dst = false ∧ fs.dirAt dst.dropLast = true ∧
        fs' = movedFS src dst fs) := by
  unfold renameFS at h
  split at h
  · exact Or.inl (Option.some.inj h).symm
  · split at h
    · exact absurd h (by simp)
    · split at h
      · exact absurd h (by simp)
      · split at h
        · exact absurd h (by simp)
        · split at h
          · exact absurd h (by simp)
          · rename_i h2 h3 h4 h5
            refine Or.inr ⟨by simpa using h2, by simpa using h4,
              (Option.some.inj h).symm⟩

/-- C7.  In the activity-logging `deleteItem`, when the sanitized source
path already lies inside `.trash` the trash-directory creation step is a
no-op; and for any delete call whatsoever, if the filesystem holds no
file and no directory under `.trash/.trash`, the same is true
afterwards, so repeated deletes of an already-trashed item never produce
a double-nested `.trash/.trash/...` location. -/
theorem c7_no_double_trash (fs : StorageFS) (p : RPath)
    (hq : ∀ q, segPre [".trash", ".trash"] q = true →
      fs.files q = none ∧ fs.dirs q = false) :
    (startsWithTrash p = true → trashMkdirStep p fs = fs) ∧
    (∀ q, segPre [".trash", ".trash"] q = true →
      (deleteItemV2 p fs).2.files q = none ∧ (deleteItemV2 p fs).2.dirs q = false) := by
  constructor
  · intro hswt
    simp [trashMkdirStep, hswt]
  · -- stage 1: the conditional mkdir step preserves the invariant
    have hq1 : ∀ q, segPre [".trash", ".trash"] q = true →
        (trashMkdirStep p fs).files q = none ∧ (trashMkdirStep p fs).dirs q = false := by
      intro q hqq
      obtain ⟨r, hr⟩ := segPre_pair hqq
      unfold trashMkdirStep
      by_cases hswt : startsWithTrash p = true
      · rw [if_pos hswt]; exact hq q hqq
      · rw [if_neg hswt]
        have hswt' : startsWithTrash p = false := by simpa using hswt
        refine ⟨(hq q hqq).1, ?_⟩
        rw [mkdirp_dirs, (hq q hqq).2]
        have hnp : segPre q ((".trash" :: p).dropLast) = false := by
          subst hr
          cases p with
          | nil => rfl
          | cons a as =>
            have ha : a ≠ ".trash" := head_not_dottrash hswt'
            cases as with
            | nil => rfl
            | cons a2 as2 =>
              show segPre (".trash" :: ".trash" :: r) (".trash" :: (a :: (a2 :: as2).dropLast)) = false
              simp only [segPre, beq_self_eq_true, Bool.true_and]
              exact segPre_cons_false (fun hc => ha hc.symm)
        rw [hnp]
        simp
    -- stage 2: the rename either fails or moves a subtree that cannot
    -- land under .trash/.trash
    have hne : ¬ (p = ".trash" :: p) := ne_trash_cons p
    set fs1 := trashMkdirStep p fs with hfs1
    intro q hqq
    obtain ⟨r, hr⟩ := segPre_pair hqq
    have hdel : (deleteItemV2 p fs).2 = fs1 ∨
        ∃ fs2, renameFS p (".trash" :: p) fs1 = some fs2 ∧ (deleteItemV2 p fs).2 = fs2 := by
      unfold deleteItemV2
      cases hrn : renameFS p (".trash" :: p) fs1 with
      | none => left; simp [← hfs1, hrn]
      | some fs2 => right; exact ⟨fs2, rfl, by simp [← hfs1, hrn]⟩
    rcases hdel with hdel | ⟨fs2, hrn, hdel⟩
    · rw [hdel]; exact hq1 q hqq
    · rcases renameFS_some hrn with heq | ⟨hnpre, hparent, heq⟩
      · rw [hdel, heq]; exact hq1 q hqq
      · -- successful rename with src not below dst
        cases p with
        | nil => simp [segPre] at hnpre
        | cons a as =>
          by_cases ha : a = ".trash"
          · -- the destination parent would itself be under .trash/.trash
            subst ha
            cases as with
            | nil => simp [segPre, segPre_refl] at hnpre
            | cons a2 as2 =>
              exfalso
              have hdl : (".trash" :: ".trash" :: a2 :: as2).dropLast
                  = ".trash" :: ".trash" :: (a2 :: as2).dropLast := rfl
              have hdt : segPre [".trash", ".trash"]
                  ((".trash" :: ".trash" :: a2 :: as2 : RPath).dropLast) = true := by
                rw [hdl]; simp [segPre]
              have hd2 := (hq1 _ hdt).2
              rw [hdl] at hparent hd2
              simp [StorageFS.dirAt, hd2] at hparent
          · -- the moved subtree stays away from .trash/.trash
            rw [hdel, heq]
            have hd1 : segPre (".trash" :: a :: as) q = false := by
              subst hr
              show segPre (".trash" :: a :: as) (".trash" :: ".trash" :: r) = false
              simp only [segPre, beq_self_eq_true, Bool.true_and]
              exact segPre_cons_false ha
            have hs1 : segPre (a :: as) q = false := by
              subst hr
              exact segPre_cons_false ha
            rw [movedFS_files_other fs1 hd1 hs1, movedFS_dirs_other fs1 hd1 hs1]
            exact hq1 q hqq

/-- Witness for C7: deleting the already-trashed `.trash/notes.txt` in a
filesystem with a trash directory but no `.trash/.trash`; the hypotheses
are checked concretely. -/
theorem c7_no_double_trash_witness :
    (startsWithTrash [".trash", "notes.txt"] = true →
      trashMkdirStep [".trash", "notes.txt"]
        ⟨fun q => if q = [".trash", "notes.txt"] then some [9] else none,
         fun q => q = [".trash"]⟩ =
        ⟨fun q => if q = [".trash", "notes.txt"] then some [9] else none,
         fun q => q = [".trash"]⟩) ∧
    (∀ q, segPre [".trash", ".trash"] q = true →
      (deleteItemV2 [".trash", "notes.txt"]
        ⟨fun q => if q = [".trash", "notes.txt"] then some [9] else none,
         fun q => q = [".trash"]⟩).2.files q = none ∧
      (deleteItemV2 [".trash", "notes.txt"]
        ⟨fun q => if q = [".trash", "notes.txt"] then some [9] else none,
         fun q => q = [".trash"]⟩).2.dirs q = false) := by
  exact c7_no_double_trash _ [".trash", "notes.txt"]
    (by
      intro q hqq
      obtain ⟨r, hr⟩ := segPre_pair hqq
      subst hr
      refine ⟨?_, ?_⟩
      · simp
      · simp)

/-! ### The chunk-upload controller (`chunkUploadController.ts`)

`uploadChunk` upserts a `ChunkUpload` record and increments
`receivedChunks`.  `completeUpload` looks the record up, opens a write
stream at the final destination (which creates/truncates the file
immediately), then walks the chunk indices `0 .. totalChunks-1`: a
missing `temp_chunks/<fileName>-chunk-<i>` aborts with a 400 naming the
index; an existing one is appended to the final file and unlinked.  On
full success the session record is deleted. -/

/-- The `ChunkUpload` Mongoose record (metadata fields omitted). -/
structure ChunkSessionRec where
  uploadId : String
  fileName : String
  totalChunks : Nat
  receivedChunks : Nat
  destPath : String
  deriving DecidableEq, Repr

/-- The chunk file name `${fileName}-chunk-${i}` used by
`completeUpload`. -/
def chunkFileName (fileName : String) (i : Nat) : String :=
  fileName ++ "-chunk-" ++ toString i

/-- The relevant filesystem state for one assembly: the `temp_chunks`
directory (contents by file name) and the content of the final
destination file (`none` = the file does not exist). -/
structure ChunkFS where
  chunkFiles : String → Option (List Nat)
  finalFile : Option (List Nat)

inductive CompleteOutcome
  | assembled
  | missingChunkAt (i : Nat)
  | noSession
  deriving DecidableEq, Repr

/-- The assembly loop of `completeUpload`, from index `i` with `k`
indices left: require the indexed chunk file, append its bytes to the
final file, unlink the chunk. -/
def assembleFrom (fileName : String) : Nat → Nat → ChunkFS → CompleteOutcome × ChunkFS
  | _, 0, st => (.assembled, st)
  | i, k + 1, st =>
    match st.chunkFiles (chunkFileName fileName i) with
    | none => (.missingChunkAt i, st)
    | some data =>
      assembleFrom fileName (i + 1) k
        { chunkFiles := fun n =>
            if n = chunkFileName fileName i then none else st.chunkFiles n
        , finalFile := some (st.finalFile.getD [] ++ data) }

/-- `completeUpload`: find the session record; create the final write
stream (this truncates/creates the destination file before any chunk is
checked); run the assembly loop; delete the session only on full
success.  The returned `Bool` is whether the session record was
deleted. -/
def completeUploadModel (sess : Option ChunkSessionRec) (st : ChunkFS) :
    CompleteOutcome × ChunkFS × Bool :=
  match sess with
  | none => (.noSession, st, false)
  | some s =>
    let st1 : ChunkFS := { st with finalFile := some [] }
    match assembleFrom s.fileName 0 s.totalChunks st1 with
    | (.assembled, st2) => (.assembled, st2, true)
    | (r, st2) => (r, st2, false)

/-- `uploadChunk`: upsert the session record (a fresh record starts at
`receivedChunks = 0`) and increment `receivedChunks` by one, regardless
of which `chunkIndex` was sent. -/
def uploadChunkModel (found : Option ChunkSessionRec)
    (uploadId fileName destPath : String) (totalChunks : Nat) : ChunkSessionRec :=
  match found with
  | none =>
    { uploadId := uploadId, fileName := fileName, totalChunks := totalChunks
    , receivedChunks := 0 + 1, destPath := destPath }
  | some s => { s with receivedChunks := s.receivedChunks + 1 }

/-- C2.  Failing input for the missing-chunk claim: a session with
`totalChunks = 2` whose chunk 0 (bytes `[7, 8]`) is present but chunk 1
is missing.  `completeUpload` does report the 400 error naming index 1,
but by then it has already created the final file and written chunk 0
into it — a partial final file exists at the destination — and chunk 0
has been unlinked from `temp_chunks`, so completion cannot be retried by
supplying only the missing chunk.  This contradicts the claim that no
final file is produced and that the remaining chunk files are
preserved. -/
theorem c2_missing_chunk_leaves_partial_file :
    (completeUploadModel
        (some ⟨"u1", "f", 2, 2, ""⟩)
        ⟨fun n => if n = "f-chunk-0" then some [7, 8] else none, none⟩).1
      = .missingChunkAt 1 ∧
    (completeUploadModel
        (some ⟨"u1", "f", 2, 2, ""⟩)
        ⟨fun n => if n = "f-chunk-0" then some [7, 8] else none, none⟩).2.1.finalFile
      = some [7, 8] ∧
    (completeUploadModel
        (some ⟨"u1", "f", 2, 2, ""⟩)
        ⟨fun n => if n = "f-chunk-0" then some [7, 8] else none, none⟩).2.1.chunkFiles
        "f-chunk-0"
      = none := by
  refine ⟨?_, ?_, ?_⟩ <;> rfl

/-- C6 counterexample.  A session reached through the controller's own
`uploadChunk` operation three times (the same chunk resent) has
`receivedChunks = 3` while `totalChunks = 2`; with both chunk files
present, `completeUpload` nevertheless assembles the file and deletes the
session, refuting the claim that it does not assemble (and reports an
error) whenever `receivedChunks` differs from `totalChunks`. -/
theorem c6_assembles_despite_counter_mismatch :
    (uploadChunkModel
        (some (uploadChunkModel (some (uploadChunkModel none "u1" "f" "" 2))
          "u1" "f" "" 2)) "u1" "f" "" 2).receivedChunks = 3 ∧
    (uploadChunkModel
        (some (uploadChunkModel (some (uploadChunkModel none "u1" "f" "" 2))
          "u1" "f" "" 2)) "u1" "f" "" 2).totalChunks = 2 ∧
    (completeUploadModel
        (some (uploadChunkModel
          (some (uploadChunkModel (some (uploadChunkModel none "u1" "f" "" 2))
            "u1" "f" "" 2)) "u1" "f" "" 2))
        ⟨fun n => if n = "f-chunk-0" then some [1] else
            if n = "f-chunk-1" then some [2] else none, none⟩).1
      = .assembled ∧
    (completeUploadModel
        (some (uploadChunkModel
          (some (uploadChunkModel (some (uploadChunkModel none "u1" "f" "" 2))
            "u1" "f" "" 2)) "u1" "f" "" 2))
        ⟨fun n => if n = "f-chunk-0" then some [1] else
            if n = "f-chunk-1" then some [2] else none, none⟩).2.1.finalFile
      = some [1, 2] := by
  refine ⟨rfl, rfl, ?_, ?_⟩ <;> rfl

/-- C6 amended.  What the code actually guarantees: each `uploadChunk`
call increments the session's `receivedChunks` counter by exactly one
(from `0` for a fresh session), and `completeUpload` never consults the
counter — its outcome and filesystem effect are identical for any value
of `receivedChunks`; assembly is gated only on the per-index existence
of the chunk files. -/
theorem c6_counter_increment_and_independence :
    (∀ (found : Option ChunkSessionRec) (u f d : String) (t : Nat),
      (uploadChunkModel found u f d t).receivedChunks =
        (match found with
          | none => 0
          | some s => s.receivedChunks) + 1) ∧
    (∀ (s : ChunkSessionRec) (r : Nat) (st : ChunkFS),
      completeUploadModel (some { s with receivedChunks := r }) st =
        completeUploadModel (some s) st) := by
  constructor
  · intro found u f d t
    cases found <;> rfl
  · intro s r st
    rfl

/-! ### Upload with versioning (`uploadFiles` and the multer middleware)

The route is `upload.array('files', 100)` **before** `uploadFiles`, and
the multer `diskStorage` writes each incoming file to
`join(storageDir, folderPath, file.originalname)` with a plain write
stream, truncating any file already at that path.  Only then does
`uploadFiles` run its versioning check.  We model one file uploaded to
the storage root (the folder path sent identically in query and body,
as the client does). -/

theorem segPre_single {x : String} {q : RPath} (h : segPre [x] q = true) :
    ∃ r, q = x :: r := by
  cases q with
  | nil => simp [segPre] at h
  | cons b bs =>
    simp [segPre] at h
    exact ⟨bs, by rw [h]⟩

/-- The multer `diskStorage` callback pair: ensure the destination
directory exists, then write the uploaded bytes at
`<folderPath>/<originalname>`, overwriting any previous content. -/
def multerSaveFile (folderPath : RPath) (origName : String) (bytes : List Nat)
    (fs : StorageFS) : StorageFS :=
  let fs1 := mkdirp folderPath fs
  { fs1 with files := fun q =>
      if q = folderPath ++ [origName] then some bytes else fs1.files q }

/-- The versioning body of `uploadFiles` (base variant) for one file: if
a file exists at the destination path, create the versions directory and
rename that file to `.versions/<folder>/<name>.<timestamp>`. -/
def uploadFilesV1 (folderPath : RPath) (origName ts : String)
    (fs : StorageFS) : StorageResult × StorageFS :=
  let filePath := folderPath ++ [origName]
  if (fs.files filePath).isSome then
    let fs1 := mkdirp ([".versions"] ++ folderPath) fs
    match renameFS filePath ([".versions"] ++ folderPath ++ [origName ++ "." ++ ts]) fs1 with
    | some fs2 => (.ok, fs2)
    | none => (.ioError, fs1)
  else (.ok, fs)

/-- The `POST /storage/upload` pipeline: multer saves the file, then the
controller's versioning logic runs. -/
def uploadPipelineV1 (folderPath : RPath) (origName : String) (bytes : List Nat)
    (ts : String) (fs : StorageFS) : StorageResult × StorageFS :=
  uploadFilesV1 folderPath origName ts (multerSaveFile folderPath origName bytes fs)

/-- C4.  Uploading `newB` over a root-level file `<name>` currently
holding `oldB` succeeds, but afterwards the destination path holds
nothing, the snapshot at `.versions/<name>.<ts>` holds the NEW bytes,
and no entry under `.versions` holds the pre-overwrite bytes `oldB`:
multer truncates the destination before `uploadFiles` runs, so the
"version" saved is the fresh upload, not the overwritten content. -/
theorem c4_version_snapshot_is_new_bytes
    (fs : StorageFS) (name ts : String) (oldB newB : List Nat)
    (hf : fs.files [name] = some oldB)
    (hne : name ≠ ".versions")
    (hdv : fs.dirs [".versions", name ++ "." ++ ts] = false)
    (hnew : newB ≠ oldB)
    (hnov : ∀ q, fs.files (".versions" :: q) = none)
    (hsub : ∀ r, r ≠ [] → fs.files (name :: r) = none) :
    (uploadPipelineV1 [] name newB ts fs).1 = .ok ∧
    (uploadPipelineV1 [] name newB ts fs).2.files [name] = none ∧
    (uploadPipelineV1 [] name newB ts fs).2.files [".versions", name ++ "." ++ ts]
      = some newB ∧
    ∀ q, (uploadPipelineV1 [] name newB ts fs).2.files (".versions" :: q)
      ≠ some oldB := by
  set vname := name ++ "." ++ ts with hvname
  set fsM := multerSaveFile [] name newB fs with hfsM
  have hMfiles : ∀ q, fsM.files q = if q = [name] then some newB else fs.files q := by
    intro q; simp [hfsM, multerSaveFile, mkdirp_files]
  have hMdirs : ∀ q, fsM.dirs q = fs.dirs q := by
    intro q
    show (fs.dirs q || (!q.isEmpty && segPre q [])) = fs.dirs q
    cases q with
    | nil => simp
    | cons a as => simp [segPre]
  set fs1 := mkdirp ([".versions"] ++ []) fsM with hfs1
  have h1files : ∀ q, fs1.files q = fsM.files q := by
    intro q; simp [hfs1, mkdirp_files]
  have h1dirs : ∀ q, fs1.dirs q =
      (fsM.dirs q || (!q.isEmpty && segPre q [".versions"])) := by
    intro q; simp [hfs1, mkdirp_dirs]
  -- the rename of the (already multer-overwritten) destination file
  have hsrcne : [name] ≠ ([".versions"] ++ [] ++ [vname] : RPath) := by
    intro h
    have := congrArg List.length h
    simp at this
  have hpre : segPre [name] ([".versions"] ++ [] ++ [vname]) = false := by
    show segPre [name] [".versions", vname] = false
    exact segPre_cons_false hne
  have hsrc : ((fs1.files [name]).isSome || fs1.dirs [name]) = true := by
    rw [h1files, hMfiles]; simp
  have hparent : fs1.dirAt ([".versions"] ++ [] ++ [vname] : RPath).dropLast = true := by
    show fs1.dirAt [".versions"] = true
    have : fs1.dirs [".versions"] = true := by
      rw [h1dirs]; simp [segPre_refl]
    simp [StorageFS.dirAt, this]
  have hdst : fs1.dirs ([".versions"] ++ [] ++ [vname]) = false := by
    show fs1.dirs [".versions", vname] = false
    rw [h1dirs, hMdirs]
    have : segPre [".versions", vname] [".versions"] = false := by
      simp [segPre]
    simp [hdv, this]
  have hren : renameFS [name] ([".versions"] ++ [] ++ [vname]) fs1
      = some (movedFS [name] ([".versions"] ++ [] ++ [vname]) fs1) :=
    renameFS_success hsrcne hpre hsrc hparent hdst
  have hMsome : (fsM.files [name]).isSome = true := by
    rw [hMfiles]; simp
  have heval : uploadPipelineV1 [] name newB ts fs
      = (.ok, movedFS [name] ([".versions"] ++ [] ++ [vname]) fs1) := by
    unfold uploadPipelineV1 uploadFilesV1
    rw [← hfsM]
    simp only [List.nil_append, List.append_nil, List.cons_append] at hMsome hren hfs1 ⊢
    rw [hMsome, if_pos rfl, ← hfs1, hren]
  have hdst2 : ([".versions"] ++ [] ++ [vname] : RPath) = [".versions", vname] := rfl
  refine ⟨by rw [heval], ?_, ?_, ?_⟩
  · rw [heval]
    show (movedFS [name] ([".versions"] ++ [] ++ [vname]) fs1).files [name] = none
    have : segPre ([".versions"] ++ [] ++ [vname]) [name] = false := by
      rw [hdst2]
      exact segPre_cons_false (fun h => hne h.symm)
    rw [movedFS_files_src fs1 this]
  · rw [heval]
    show (movedFS [name] ([".versions"] ++ [] ++ [vname]) fs1).files
        ([".versions"] ++ [] ++ [vname]) = some newB
    rw [movedFS_files_dst, h1files, hMfiles]
    simp
  · intro q
    rw [heval]
    show (movedFS [name] ([".versions"] ++ [] ++ [vname]) fs1).files
        (".versions" :: q) ≠ some oldB
    rw [hdst2]
    by_cases hq : segPre [".versions", vname] (".versions" :: q) = true
    · -- inside the destination subtree: contents come from the fresh file
      have hq' : segPre [vname] q = true := by
        simpa [segPre] using hq
      obtain ⟨r, hr⟩ := segPre_single hq'
      subst hr
      show (if segPre [".versions", vname] (".versions" :: vname :: r) then
          fs1.files ([name] ++ (".versions" :: vname :: r).drop 2)
        else if segPre [name] (".versions" :: vname :: r) then none
        else fs1.files (".versions" :: vname :: r)) ≠ some oldB
      rw [if_pos hq]
      show fs1.files ([name] ++ r) ≠ some oldB
      rw [h1files, hMfiles]
      cases r with
      | nil =>
        simp only [List.append_nil, if_pos rfl]
        intro h
        exact hnew (Option.some.inj h)
      | cons b bs =>
        have hne2 : (name :: b :: bs : RPath) ≠ [name] := by simp
        have := hsub (b :: bs) (by simp)
        simp only [List.cons_append, List.nil_append]
        rw [if_neg hne2, this]
        simp
    · have hq2 : segPre [".versions", vname] (".versions" :: q) = false := by
        simpa using hq
      have hq3 : segPre [name] (".versions" :: q) = false :=
        segPre_cons_false hne
      rw [movedFS_files_other fs1 hq2 hq3, h1files, hMfiles]
      have hne3 : (".versions" :: q : RPath) ≠ [name] := by
        intro h
        cases q with
        | nil => exact hne (by injection h with h1 _; exact h1.symm)
        | cons c cs => simp at h
      rw [if_neg hne3, hnov]
      simp

/-- Witness for C4: uploading bytes `[9]` over `f.txt` holding `[1, 2]`
in a one-file filesystem; the hypotheses are checked concretely. -/
theorem c4_version_snapshot_is_new_bytes_witness :
    (uploadPipelineV1 [] "f.txt" [9] "T"
      ⟨fun q => if q = ["f.txt"] then some [1, 2] else none, fun _ => false⟩).1 = .ok ∧
    (uploadPipelineV1 [] "f.txt" [9] "T"
      ⟨fun q => if q = ["f.txt"] then some [1, 2] else none, fun _ => false⟩).2.files
      ["f.txt"] = none ∧
    (uploadPipelineV1 [] "f.txt" [9] "T"
      ⟨fun q => if q = ["f.txt"] then some [1, 2] else none, fun _ => false⟩).2.files
      [".versions", "f.txt" ++ "." ++ "T"] = some [9] ∧
    ∀ q, (uploadPipelineV1 [] "f.txt" [9] "T"
      ⟨fun q => if q = ["f.txt"] then some [1, 2] else none, fun _ => false⟩).2.files
      (".versions" :: q) ≠ some [1, 2] := by
  exact c4_version_snapshot_is_new_bytes _ "f.txt" "T" [1, 2] [9]
    (by simp)
    (by decide)
    (by simp)
    (by decide)
    (by intro q; simp)
    (by intro r hr; simp [hr])

/-! ### The share-link registry (activity-logging variant)

```js
const expiresAt = new Date(Date.now() + expiresIn * 3600000);
... new SharedFile({ filePath: sanitizedFilePath, token, expiresAt, ... }).save();
...
const sharedFile = await SharedFile.findOne({ token });
if (!sharedFile) return 404;
if (sharedFile.expiresAt < new Date()) return 410;   // record NOT deleted
res.sendFile(path.join(storageDir, sharedFile.filePath));
```

Times are Unix milliseconds (`Int`).  The `SharedFile` collection is an
association list; `findOne` is the first match. -/

/-- The `sanitizePath` of the activity-logging variant:
`path.normalize(p).replace(/^(\.\.(\/|\\|$))+/, '').replace(/^\/+/, '')`. -/
def stripLeadDotDot : List Char → List Char
  | '.' :: '.' :: '/' :: rest => stripLeadDotDot rest
  | '.' :: '.' :: '\\' :: rest => stripLeadDotDot rest
  | ['.', '.'] => []
  | cs => cs

/-- The `sanitizePath` helper of the activity-logging variant. -/
def sanitizePathV2 (inputPath : String) : String :=
  String.mk (dropLeadSlashes (stripLeadDotDot (pathNormalize inputPath).toList))

/-- A `SharedFile` record (the `createdBy` reference is irrelevant to
resolution and omitted). -/
structure SharedFileRec where
  filePath : String
  token : String
  expiresAt : Int
  deriving DecidableEq, Repr

/-- `SharedFile.findOne({ token })`. -/
def findShared (db : List SharedFileRec) (tok : String) : Option SharedFileRec :=
  db.find? (fun r => r.token == tok)

inductive ShareAccess
  | notFound
  | expired
  | sent (filePath : String)
  deriving DecidableEq, Repr

/-- `getSharedFile`: look the token up; absent → 404; past expiry → 410
with the collection untouched; otherwise serve the stored path.  The
returned collection is the state of the `SharedFile` store afterwards
(the handler never writes to it). -/
def getSharedFileModel (db : List SharedFileRec) (tok : String) (now : Int) :
    ShareAccess × List SharedFileRec :=
  match findShared db tok with
  | none => (.notFound, db)
  | some r => if r.expiresAt < now then (.expired, db) else (.sent r.filePath, db)

/-- `createShareLink`: with the path guard and existence check passed
(`fileOk`), mint the record with `expiresAt = now + expiresIn * 3600000`
and save it.  `none` is the 400 rejection. -/
def createShareLinkModel (db : List SharedFileRec) (filePath : String)
    (expiresIn : Int) (now : Int) (tok : String) (fileOk : Bool) :
    Option (List SharedFileRec) :=
  if fileOk then
    some (db ++ [{ filePath := sanitizePathV2 filePath, token := tok
                 , expiresAt := now + expiresIn * 3600000 }])
  else none

theorem findShared_append_fresh (db : List SharedFileRec) (r : SharedFileRec)
    (hfresh : ∀ s ∈ db, s.token ≠ r.token) :
    findShared (db ++ [r]) r.token = some r := by
  induction db with
  | nil => simp [findShared, List.find?]
  | cons s ss ih =>
    have hs : (s.token == r.token) = false := by
      simp [hfresh s (by simp)]
    simp only [findShared, List.cons_append, List.find?, hs]
    exact ih (fun t ht => hfresh t (by simp [ht]))

/-- C5.  Share-token resolution: an absent token yields 404; a token
past its expiry yields 410 and the record survives (a later lookup still
finds it); an unexpired token serves the stored file path.  A link
created with `expiresIn = 0` is expired at every strictly later instant,
and one with a positive expiry resolves successfully at every instant up
to and including `now + expiresIn * 3600000`. -/
theorem c5_share_link_resolution (db : List SharedFileRec) (tok : String) (now : Int) :
    (findShared db tok = none → getSharedFileModel db tok now = (.notFound, db)) ∧
    (∀ r, findShared db tok = some r → r.expiresAt < now →
      getSharedFileModel db tok now = (.expired, db) ∧
      findShared (getSharedFileModel db tok now).2 tok = some r) ∧
    (∀ r, findShared db tok = some r → ¬ r.expiresAt < now →
      getSharedFileModel db tok now = (.sent r.filePath, db)) ∧
    (∀ fp db', createShareLinkModel db fp 0 now tok true = some db' →
      (∀ s ∈ db, s.token ≠ tok) →
      ∀ now', now < now' → (getSharedFileModel db' tok now').1 = .expired) ∧
    (∀ fp (h : Int) db', createShareLinkModel db fp h now tok true = some db' →
      (∀ s ∈ db, s.token ≠ tok) →
      ∀ now', now' ≤ now + h * 3600000 →
        (getSharedFileModel db' tok now').1 = .sent (sanitizePathV2 fp)) := by
  refine ⟨?_, ?_, ?_, ?_, ?_⟩
  · intro h
    simp [getSharedFileModel, h]
  · intro r hr hexp
    refine ⟨by simp [getSharedFileModel, hr, hexp], ?_⟩
    simp [getSharedFileModel, hr, hexp]
  · intro r hr hexp
    simp [getSharedFileModel, hr, hexp]
  · intro fp db' hc hfresh now' hlt
    have hdb' : db' = db ++ [(⟨sanitizePathV2 fp, tok, now + 0 * 3600000⟩ : SharedFileRec)] := by
      simpa [createShareLinkModel] using hc.symm
    have hfind := findShared_append_fresh db
      (⟨sanitizePathV2 fp, tok, now + 0 * 3600000⟩ : SharedFileRec)
      (by intro s hs; exact hfresh s hs)
    rw [hdb']
    have hexp : (now + 0 * 3600000 : Int) < now' := by
      simpa using hlt
    simp only [zero_mul, add_zero] at hfind hexp
    simp [getSharedFileModel, hfind, hexp]
  · intro fp h db' hc hfresh now' hle
    have hdb' : db' = db ++ [(⟨sanitizePathV2 fp, tok, now + h * 3600000⟩ : SharedFileRec)] := by
      simpa [createShareLinkModel] using hc.symm
    have hfind := findShared_append_fresh db
      (⟨sanitizePathV2 fp, tok, now + h * 3600000⟩ : SharedFileRec)
      (by intro s hs; exact hfresh s hs)
    rw [hdb']
    have hexp : ¬ (now + h * 3600000 : Int) < now' := by
      exact not_lt.mpr hle
    simp [getSharedFileModel, hfind, hexp]

/-- Witness for C5: an empty collection, a link on `cv.pdf` minted at
time 0 with `expiresIn = 0` (expired at time 1) and one with
`expiresIn = 2` hours (still served at time 7200000); plus the 404 and
410 components at concrete inputs. -/
theorem c5_share_link_resolution_witness :
    (getSharedFileModel [] "t0" 5 = (.notFound, []) ∧
     getSharedFileModel [⟨"cv.pdf", "t1", 10⟩] "t1" 11
        = (.expired, [⟨"cv.pdf", "t1", 10⟩]) ∧
     findShared (getSharedFileModel [⟨"cv.pdf", "t1", 10⟩] "t1" 11).2 "t1"
        = some ⟨"cv.pdf", "t1", 10⟩ ∧
     getSharedFileModel [⟨"cv.pdf", "t1", 10⟩] "t1" 10
        = (.sent "cv.pdf", [⟨"cv.pdf", "t1", 10⟩])) ∧
    (∀ db', createShareLinkModel [] "cv.pdf" 0 0 "t2" true = some db' →
      (getSharedFileModel db' "t2" 1).1 = .expired) ∧
    (∀ db', createShareLinkModel [] "cv.pdf" 2 0 "t2" true = some db' →
      (getSharedFileModel db' "t2" 7200000).1 = .sent (sanitizePathV2 "cv.pdf")) := by
  refine ⟨⟨?_, ?_, ?_, ?_⟩, ?_, ?_⟩
  · exact (c5_share_link_resolution [] "t0" 5).1 rfl
  · exact ((c5_share_link_resolution [⟨"cv.pdf", "t1", 10⟩] "t1" 11).2.1
      ⟨"cv.pdf", "t1", 10⟩ rfl (by decide)).1
  · exact ((c5_share_link_resolution [⟨"cv.pdf", "t1", 10⟩] "t1" 11).2.1
      ⟨"cv.pdf", "t1", 10⟩ rfl (by decide)).2
  · exact (c5_share_link_resolution [⟨"cv.pdf", "t1", 10⟩] "t1" 10).2.2.1
      ⟨"cv.pdf", "t1", 10⟩ rfl (by decide)
  · intro db' hc
    exact (c5_share_link_resolution [] "t2" 0).2.2.2.1 "cv.pdf" db' hc
      (by intro s hs; simp at hs) 1 (by decide)
  · intro db' hc
    exact (c5_share_link_resolution [] "t2" 0).2.2.2.2 "cv.pdf" 2 db' hc
      (by intro s hs; simp at hs) 7200000 (by decide)

/-! ### Catalog pagination (`listItems`, both variants)

```js
const totalItems = results.length;
const totalPages = Math.ceil(totalItems / pageSize);
const paginatedResults = results.slice((page - 1) * pageSize, page * pageSize);
```

`Array.prototype.slice(a, b)` with `0 ≤ a ≤ b` is the elements with
index in `[a, b)`; `Math.ceil` of the exact rational `n / s` for `s > 0`
is `(n + s - 1) / s` in natural division.  (`page` and `pageSize` come
through `parseInt(x) || default`, so the defaults 1 and 50 replace 0.) -/

/-- Model of `results.slice(a, b)` for `0 ≤ a ≤ b`. -/
def jsSlice {α : Type} (l : List α) (a b : Nat) : List α :=
  (l.take b).drop a

/-- The pagination tail of `listItems`, applied to the already filtered
and sorted entry list. -/
structure PageOut (α : Type) where
  items : List α
  page : Nat
  pageSize : Nat
  totalItems : Nat
  totalPages : Nat
  deriving Repr

/-- Pagination as performed by `listItems` (both variants). -/
def paginateModel {α : Type} (results : List α) (page pageSize : Nat) : PageOut α :=
  { items := jsSlice results ((page - 1) * pageSize) (page * pageSize)
  , page := page
  , pageSize := pageSize
  , totalItems := results.length
  , totalPages := (results.length + pageSize - 1) / pageSize }

/-- C8.  Pagination: the returned items are exactly the window of
`pageSize` entries starting at `(page-1)*pageSize` of the sorted list;
`totalPages` is the ceiling of `totalItems / pageSize` (characterized as
the least multiple bound); an out-of-range page yields an empty item
set; and concretely 73 items at page size 50 give 23 items on page 2,
`totalPages = 2`, and an empty page 3. -/
theorem c8_pagination (results : List Nat) (page pageSize : Nat)
    (hp : 1 ≤ page) (hs : 1 ≤ pageSize) :
    (paginateModel results page pageSize).items
      = (results.drop ((page - 1) * pageSize)).take pageSize ∧
    (paginateModel results page pageSize).totalItems
      ≤ (paginateModel results page pageSize).totalPages * pageSize ∧
    (paginateModel results page pageSize).totalPages * pageSize
      < (paginateModel results page pageSize).totalItems + pageSize ∧
    (results.length ≤ (page - 1) * pageSize →
      (paginateModel results page pageSize).items = []) ∧
    (paginateModel (List.range 73) 2 50).items.length = 23 ∧
    (paginateModel (List.range 73) 2 50).totalPages = 2 ∧
    (paginateModel (List.range 73) 3 50).items = [] ∧
    (paginateModel (List.range 73) 3 50).totalPages = 2 := by
  obtain ⟨q, rfl⟩ : ∃ q, page = q + 1 := ⟨page - 1, by omega⟩
  refine ⟨?_, ?_, ?_, ?_, by decide, by decide, by decide, by decide⟩
  · show jsSlice results ((q + 1 - 1) * pageSize) ((q + 1) * pageSize) = _
    unfold jsSlice
    rw [List.drop_take]
    have harith : (q + 1) * pageSize - (q + 1 - 1) * pageSize = pageSize := by
      have h1 : (q + 1) * pageSize = q * pageSize + pageSize := Nat.succ_mul q pageSize
      have h2 : (q + 1 - 1) * pageSize = q * pageSize := by simp
      omega
    rw [harith]
  · show results.length ≤ (results.length + pageSize - 1) / pageSize * pageSize
    set n := results.length
    have hlt : (n + pageSize - 1) < ((n + pageSize - 1) / pageSize + 1) * pageSize :=
      (Nat.div_lt_iff_lt_mul (by omega)).mp (Nat.lt_succ_self _)
    have hmul : ((n + pageSize - 1) / pageSize + 1) * pageSize
        = (n + pageSize - 1) / pageSize * pageSize + pageSize := Nat.succ_mul _ _
    omega
  · show (results.length + pageSize - 1) / pageSize * pageSize < results.length + pageSize
    set n := results.length
    have hle : (n + pageSize - 1) / pageSize * pageSize ≤ n + pageSize - 1 :=
      Nat.div_mul_le_self _ _
    omega
  · intro hout
    show jsSlice results ((q + 1 - 1) * pageSize) ((q + 1) * pageSize) = []
    unfold jsSlice
    have : (results.take ((q + 1) * pageSize)).length ≤ (q + 1 - 1) * pageSize := by
      rw [List.length_take]
      have : (q + 1 - 1) * pageSize = q * pageSize := by simp
      simp only [this] at hout ⊢
      exact le_trans (min_le_right _ _) hout
    exact List.drop_eq_nil_of_le this

/-- Witness for C8 at the spec's concrete instance (73 items, page size
50, pages 2 and 3). -/
theorem c8_pagination_witness :
    (paginateModel (List.range 73) 2 50).items
      = ((List.range 73).drop 50).take 50 ∧
    (paginateModel (List.range 73) 2 50).items.length = 23 ∧
    (paginateModel (List.range 73) 2 50).totalPages = 2 ∧
    (paginateModel (List.range 73) 3 50).items = [] := by
  have h := c8_pagination (List.range 73) 2 50 (by decide) (by decide)
  have h3 := c8_pagination (List.range 73) 3 50 (by decide) (by decide)
  refine ⟨?_, h.2.2.2.2.1, h.2.2.2.2.2.1, ?_⟩
  · simpa using h.1
  · exact h3.2.2.2.1 (by simp)

/-! ### Catalog sorting (`listItems`, both variants)

Base variant (raw JS relational comparison on the selected field):

```js
results.sort((a, b) => {
    const compareA = a[sortBy]; const compareB = b[sortBy];
    if (compareA < compareB) return sortOrder === 'asc' ? -1 : 1;
    if (compareA > compareB) return sortOrder === 'asc' ? 1 : -1;
    return 0;
});
```

Activity-logging variant (locale-aware for names):

```js
if (sortBy === 'name') compare = a.name.localeCompare(b.name);
else if (sortBy === 'size') compare = a.size - b.size; ...
return sortOrder === 'asc' ? compare : -compare;
```

JS `<` on strings is code-unit lexicographic order.  `localeCompare`
under the Node default (ICU) collation, restricted to ASCII, compares
case-folded text first and breaks ties with lowercase before uppercase;
`localeCompareModel` models exactly that.  `Array.prototype.sort` is a
stable sort driven by the comparator; `sortWithCmp` is a stable
insertion sort, which agrees with it for these consistent
comparators. -/

/-- A catalog entry, restricted to the sortable fields. -/
structure CatalogItem where
  name : String
  size : Nat
  modifiedAt : Int
  createdAt : Int
  deriving DecidableEq, Repr

/-- Code-unit lexicographic strict order on character lists (JS `<` on
strings; code units and code points agree on the ASCII inputs here). -/
def codeUnitLt : List Char → List Char → Bool
  | [], [] => false
  | [], _ :: _ => true
  | _ :: _, [] => false
  | a :: as, b :: bs =>
    if a.toNat < b.toNat then true
    else if b.toNat < a.toNat then false
    else codeUnitLt as bs

/-- JS `a < b` on strings. -/
def jsStrLt (a b : String) : Bool :=
  codeUnitLt a.toList b.toList

/-- The base variant's `a[sortBy] < b[sortBy]` comparison. -/
def baseFieldLt (sortBy : String) (a b : CatalogItem) : Bool :=
  if sortBy == "name" then jsStrLt a.name b.name
  else if sortBy == "size" then a.size < b.size
  else if sortBy == "modifiedAt" then a.modifiedAt < b.modifiedAt
  else if sortBy == "createdAt" then a.createdAt < b.createdAt
  else false

/-- The base variant's sort comparator. -/
def baseCompare (sortBy sortOrder : String) (a b : CatalogItem) : Int :=
  if baseFieldLt sortBy a b then (if sortOrder == "asc" then -1 else 1)
  else if baseFieldLt sortBy b a then (if sortOrder == "asc" then 1 else -1)
  else 0

/-- Lexicographic three-way comparison of numeric lists. -/
def natLexCmp : List Nat → List Nat → Int
  | [], [] => 0
  | [], _ :: _ => -1
  | _ :: _, [] => 1
  | a :: as, b :: bs =>
    if a < b then -1 else if b < a then 1 else natLexCmp as bs

/-- Tertiary collation weight: lowercase (and everything that is not an
upper-case letter) before uppercase. -/
def caseRank (c : Char) : Nat :=
  if c.isUpper then 1 else 0

/-- Model of `String.prototype.localeCompare` under the Node default
collation, restricted to ASCII: primary pass on case-folded characters,
tie broken by case ranks. -/
def localeCompareModel (a b : String) : Int :=
  let pa := a.toList.map (fun c => c.toLower.toNat)
  let pb := b.toList.map (fun c => c.toLower.toNat)
  if natLexCmp pa pb = 0 then
    natLexCmp (a.toList.map caseRank) (b.toList.map caseRank)
  else natLexCmp pa pb

/-- The activity-logging variant's sort comparator. -/
def v2Compare (sortBy sortOrder : String) (a b : CatalogItem) : Int :=
  let compare : Int :=
    if sortBy == "name" then localeCompareModel a.name b.name
    else if sortBy == "size" then (a.size : Int) - (b.size : Int)
    else if sortBy == "modifiedAt" then a.modifiedAt - b.modifiedAt
    else if sortBy == "createdAt" then a.createdAt - b.createdAt
    else 0
  if sortOrder == "asc" then compare else -compare

/-- Stable insertion: `x` goes before the first element it compares
strictly below, after equal ones. -/
def insertCmp {α : Type} (cmp : α → α → Int) (x : α) : List α → List α
  | [] => [x]
  | y :: ys => if cmp x y < 0 then x :: y :: ys else y :: insertCmp cmp x ys

/-- Stable comparator sort (the behaviour of `Array.prototype.sort` for
a consistent comparator). -/
def sortWithCmp {α : Type} (cmp : α → α → Int) (l : List α) : List α :=
  l.foldl (fun acc x => insertCmp cmp x acc) []

/-- The spec's example listing. -/
def exItems : List CatalogItem :=
  [⟨"b.txt", 0, 0, 0⟩, ⟨"A.txt", 0, 0, 0⟩, ⟨"a.txt", 0, 0, 0⟩]

/-- C9 counterexample.  On the spec's own example
`["b.txt", "A.txt", "a.txt"]`, the base variant's name sort produces the
raw code-unit order `["A.txt", "a.txt", "b.txt"]`, which differs from
the locale-aware order `["a.txt", "A.txt", "b.txt"]` produced by the
activity-logging variant — so not every listing is ordered by
locale-aware comparison. -/
theorem c9_base_name_sort_is_code_unit_order :
    (sortWithCmp (baseCompare "name" "asc") exItems).map (fun i => i.name)
      = ["A.txt", "a.txt", "b.txt"] ∧
    (sortWithCmp (v2Compare "name" "asc") exItems).map (fun i => i.name)
      = ["a.txt", "A.txt", "b.txt"] ∧
    (["A.txt", "a.txt", "b.txt"] : List String) ≠ ["a.txt", "A.txt", "b.txt"] := by
  refine ⟨by decide, by decide, by decide⟩

/-- C9 amended.  Only the activity-logging variant sorts names
locale-aware (`localeCompare`); the base variant sorts names by raw
code-unit order.  On the example both variants' `desc` order is the
exact reverse of their `asc` order, and the numeric sort keys compare
numerically in both. -/
theorem c9_sorting_by_variant :
    (sortWithCmp (v2Compare "name" "asc") exItems).map (fun i => i.name)
      = ["a.txt", "A.txt", "b.txt"] ∧
    (sortWithCmp (v2Compare "name" "desc") exItems).map (fun i => i.name)
      = (((sortWithCmp (v2Compare "name" "asc") exItems).map (fun i => i.name)).reverse) ∧
    (sortWithCmp (baseCompare "name" "asc") exItems).map (fun i => i.name)
      = ["A.txt", "a.txt", "b.txt"] ∧
    (sortWithCmp (baseCompare "name" "desc") exItems).map (fun i => i.name)
      = (((sortWithCmp (baseCompare "name" "asc") exItems).map (fun i => i.name)).reverse) ∧
    (∀ a b : CatalogItem, v2Compare "size" "asc" a b < 0 ↔ a.size < b.size) ∧
    (∀ a b : CatalogItem, v2Compare "modifiedAt" "asc" a b < 0 ↔ a.modifiedAt < b.modifiedAt) ∧
    (∀ a b : CatalogItem, baseFieldLt "size" a b = true ↔ a.size < b.size) := by
  refine ⟨by decide, by decide, by decide, by decide, ?_, ?_, ?_⟩
  · intro a b
    show ((a.size : Int) - (b.size : Int) < 0 ↔ a.size < b.size)
    omega
  · intro a b
    show (a.modifiedAt - b.modifiedAt < 0 ↔ a.modifiedAt < b.modifiedAt)
    omega
  · intro a b
    show (decide (a.size < b.size) = true ↔ a.size < b.size)
    simp

/-! ### File preview (`filePreview`, both variants)

Base variant: image MIME types are sent whole; `text/*` is served as
`data.substring(0, 1000)`; everything else is 400 "Preview not
available".  The activity-logging variant raises the text limit to 5000
and additionally sends `application/pdf` whole.  `fileOk` models the
conjunction `fullPath.startsWith(storageDir) && fs.existsSync(fullPath)`;
`mimeType` is the `mime.lookup` result (`none` = `false`). -/

inductive PreviewOut
  | notFound
  | image (bytes : List Nat)
  | text (s : String)
  | pdf (bytes : List Nat)
  | unsupported
  deriving DecidableEq, Repr

/-- JS `data.substring(0, n)`. -/
def takeChars (s : String) (n : Nat) : String :=
  String.mk (s.toList.take n)

/-- `filePreview` of the base `storageController.ts`. -/
def filePreviewV1 (fileOk : Bool) (mimeType : Option String)
    (textData : String) (raw : List Nat) : PreviewOut :=
  if !fileOk then .notFound
  else
    match mimeType with
    | some m =>
      if jsStartsWith m "image/" then .image raw
      else if jsStartsWith m "text/" then .text (takeChars textData 1000)
      else .unsupported
    | none => .unsupported

/-- `filePreview` of the activity-logging variant (5000-character text
limit, PDF passthrough). -/
def filePreviewV2 (fileOk : Bool) (mimeType : Option String)
    (textData : String) (raw : List Nat) : PreviewOut :=
  if !fileOk then .notFound
  else
    match mimeType with
    | some m =>
      if jsStartsWith m "image/" then .image raw
      else if jsStartsWith m "text/" then .text (takeChars textData 5000)
      else if m == "application/pdf" then .pdf raw
      else .unsupported
    | none => .unsupported

theorem charPre_head {x y : Char} {xs ys : List Char}
    (h : charPre (x :: xs) (y :: ys) = true) : x = y := by
  simp [charPre] at h
  exact h.1

theorem text_mime_not_image {m : String} (h : jsStartsWith m "text/" = true) :
    jsStartsWith m "image/" = false := by
  unfold jsStartsWith at h ⊢
  rw [show ("text/").toList = ['t', 'e', 'x', 't', '/'] from rfl] at h
  rw [show ("image/").toList = ['i', 'm', 'a', 'g', 'e', '/'] from rfl]
  cases hm : m.toList with
  | nil => rw [hm] at h; simp [charPre] at h
  | cons c cs =>
    rw [hm] at h
    have hc : 't' = c := charPre_head h
    rw [← hc]
    simp [charPre]

theorem text_mime_ne_pdf {m : String} (h : jsStartsWith m "text/" = true) :
    (m == "application/pdf") = false := by
  cases hx : (m == "application/pdf") with
  | false => rfl
  | true =>
    have hm : m = "application/pdf" := by simpa using hx
    rw [hm] at h
    exact absurd h (by decide)

theorem takeChars_length_le (s : String) (n : Nat) :
    (takeChars s n).length ≤ n := by
  show (s.toList.take n).length ≤ n
  rw [List.length_take]
  exact min_le_left _ _

theorem takeChars_ne_of_long {s : String} {n : Nat} (h : n < s.length) :
    takeChars s n ≠ s := by
  intro heq
  have hlen := congrArg String.length heq
  have h1 : (takeChars s n).length = min n s.length := by
    show (s.toList.take n).length = min n s.length
    rw [List.length_take]
    rfl
  rw [h1] at hlen
  omega

/-- C10.  Preview bounds: an existing `text/*` file is served as a
bounded prefix — at most the first 1000 characters in the base variant,
5000 in the activity-logging one — and never the full content of a
longer file; `image/*` files (and `application/pdf` in the variant) are
sent whole; any other MIME type gets the 400 "Preview not available"
response (including PDF in the base variant). -/
theorem c10_preview_bounds (mt : Option String) (textData : String) (raw : List Nat) :
    (∀ m, mt = some m → jsStartsWith m "text/" = true →
      filePreviewV1 true mt textData raw = .text (takeChars textData 1000) ∧
      (takeChars textData 1000).length ≤ 1000 ∧
      (1000 < textData.length → takeChars textData 1000 ≠ textData) ∧
      filePreviewV2 true mt textData raw = .text (takeChars textData 5000) ∧
      (takeChars textData 5000).length ≤ 5000 ∧
      (5000 < textData.length → takeChars textData 5000 ≠ textData)) ∧
    (∀ m, mt = some m → jsStartsWith m "image/" = true →
      filePreviewV1 true mt textData raw = .image raw ∧
      filePreviewV2 true mt textData raw = .image raw) ∧
    (∀ m, mt = some m → jsStartsWith m "image/" = false →
      jsStartsWith m "text/" = false → (m == "application/pdf") = false →
      filePreviewV1 true mt textData raw = .unsupported ∧
      filePreviewV2 true mt textData raw = .unsupported) ∧
    (mt = none →
      filePreviewV1 true mt textData raw = .unsupported ∧
      filePreviewV2 true mt textData raw = .unsupported) ∧
    filePreviewV2 true (some "application/pdf") textData raw = .pdf raw ∧
    filePreviewV1 true (some "application/pdf") textData raw = .unsupported := by
  refine ⟨?_, ?_, ?_, ?_, by rfl, by rfl⟩
  · intro m hm ht
    subst hm
    have hni : jsStartsWith m "image/" = false := text_mime_not_image ht
    refine ⟨?_, takeChars_length_le _ _, fun h => takeChars_ne_of_long h, ?_,
      takeChars_length_le _ _, fun h => takeChars_ne_of_long h⟩
    · simp [filePreviewV1, hni, ht]
    · simp [filePreviewV2, hni, ht]
  · intro m hm hi
    subst hm
    exact ⟨by simp [filePreviewV1, hi], by simp [filePreviewV2, hi]⟩
  · intro m hm hi ht hp
    subst hm
    exact ⟨by simp [filePreviewV1, hi, ht],
      by simp [filePreviewV2, hi, ht, hp]⟩
  · intro hm
    subst hm
    exact ⟨rfl, rfl⟩

/-- Witness for C10: a 1001-character `text/plain` file is truncated to
its first 1000 characters (so the preview differs from the content), a
PNG is sent whole, and a zip archive gets the 400 response. -/
theorem c10_preview_bounds_witness :
    filePreviewV1 true (some "text/plain") (String.mk (List.replicate 1001 'x')) []
      = .text (takeChars (String.mk (List.replicate 1001 'x')) 1000) ∧
    takeChars (String.mk (List.replicate 1001 'x')) 1000
      ≠ String.mk (List.replicate 1001 'x') ∧
    filePreviewV1 true (some "image/png") "" [137, 80]
      = .image [137, 80] ∧
    filePreviewV1 true (some "application/zip") "" []
      = .unsupported ∧
    filePreviewV2 true (some "application/zip") "" []
      = .unsupported := by
  have htxt := (c10_preview_bounds (some "text/plain")
    (String.mk (List.replicate 1001 'x')) []).1 "text/plain" rfl (by decide)
  have himg := (c10_preview_bounds (some "image/png") "" [137, 80]).2.1
    "image/png" rfl (by decide)
  have hzip := (c10_preview_bounds (some "application/zip") "" []).2.2.1
    "application/zip" rfl (by decide) (by decide) (by decide)
  refine ⟨htxt.1, ?_, himg.1, hzip.1, hzip.2⟩
  refine htxt.2.2.1 ?_
  show 1000 < (List.replicate 1001 'x').length
  rw [List.length_replicate]
  omega

end PortfolioStorage
